import Mathlib

/-!
Verification of the kirei unified issue-tracker client.

This file gives a shallow embedding of the provider abstraction
(provider identity, credential resolution, the GitHub / Linear / Trello
adapters' pure request-building and JSON-mapping logic) and the OAuth
loopback flow (authorization URL construction, callback-URL code
extraction, per-request event ordering of the callback listener), and
proves the behavioural properties stated in the specification.

JSON values returned by the providers are modelled by the inductive
`Kirei.Json` (a tree of null / bool / integer / string / array /
object).  Numbers are modelled as integers: every field the client
inspects with `as_i64` is an integer, and no analysed code path
inspects a float.  Stateful or network-performing operations are
modelled by pure functions that take the (already received) response
body as an argument and return the request that the code would issue
together with the value the code computes from the response.
-/

namespace Kirei

/-! ### JSON value model (serde_json::Value) -/

mutual
/-- A parsed JSON value, mirroring `serde_json::Value` (numbers restricted
to integers, which is all the analysed code reads). -/
inductive Json where
  | null
  | bool (b : Bool)
  | num (n : Int)
  | str (s : String)
  | arr (elems : JsonList)
  | obj (fields : JsonFields)
deriving DecidableEq
/-- Array elements of a `Json` value. -/
inductive JsonList where
  | nil
  | cons (hd : Json) (tl : JsonList)
deriving DecidableEq
/-- Object fields of a `Json` value, in insertion order with unique keys. -/
inductive JsonFields where
  | nil
  | cons (key : String) (val : Json) (tl : JsonFields)
deriving DecidableEq
end

/-- Convert the array spine to a plain list (used to model
`Value::as_array` followed by iteration). -/
def JsonList.toList : JsonList → List Json
  | .nil => []
  | .cons h t => h :: JsonList.toList t

/-- Build the array spine from a plain list. -/
def JsonList.ofList : List Json → JsonList
  | [] => .nil
  | h :: t => .cons h (JsonList.ofList t)

/-- Look up a key among object fields (first match; parsed objects have
unique keys). -/
def JsonFields.find : JsonFields → String → Option Json
  | .nil, _ => none
  | .cons k v t, key => if k = key then some v else JsonFields.find t key

/-- `Value::get(key)`: field lookup on objects, `None` on anything else. -/
def Json.get : Json → String → Option Json
  | .obj fields, key => fields.find key
  | _, _ => none

/-- `Value::as_i64`. -/
def Json.asInt : Json → Option Int
  | .num n => some n
  | _ => none

/-- `Value::as_str`. -/
def Json.asStr : Json → Option String
  | .str s => some s
  | _ => none

/-- `Value::as_array`, returned as a plain list. -/
def Json.asArr : Json → Option (List Json)
  | .arr elems => some elems.toList
  | _ => none

/-- Left brace character (kept out of string literals). -/
def lbrace : Char := Char.ofNat 123

/-- Right brace character (kept out of string literals). -/
def rbrace : Char := Char.ofNat 125

/-- Lowercase hexadecimal digit of `n % 16`. -/
def hexDigitLower (n : Nat) : Char :=
  if n % 16 < 10 then Char.ofNat (48 + n % 16) else Char.ofNat (87 + n % 16)

/-- JSON string escaping as performed by `serde_json`'s compact writer:
quote and backslash escaped, control characters as `\n`, `\r`, `\t` or
`\u00XX`. -/
def escapeJsonChar (c : Char) : List Char :=
  if c = '"' then ['\\', '"']
  else if c = '\\' then ['\\', '\\']
  else if c = '\n' then ['\\', 'n']
  else if c = '\r' then ['\\', 'r']
  else if c = '\t' then ['\\', 't']
  else if c.toNat < 32 then
    ['\\', 'u', '0', '0', hexDigitLower (c.toNat / 16), hexDigitLower c.toNat]
  else [c]

/-- Render a JSON string literal with quotes and escapes. -/
def renderJsonString (s : String) : String :=
  "\"" ++ String.mk (s.data.flatMap escapeJsonChar) ++ "\""

mutual
/-- Compact serialization of a `Json` value, mirroring
`serde_json::Value::to_string()`. -/
def Json.render : Json → String
  | .null => "null"
  | .bool b => cond b "true" "false"
  | .num n => toString n
  | .str s => renderJsonString s
  | .arr elems => "[" ++ JsonList.render elems ++ "]"
  | .obj fields =>
      String.singleton lbrace ++ JsonFields.render fields ++ String.singleton rbrace
/-- Comma-separated serialization of array elements. -/
def JsonList.render : JsonList → String
  | .nil => ""
  | .cons h .nil => Json.render h
  | .cons h (.cons h2 t) => Json.render h ++ "," ++ JsonList.render (.cons h2 t)
/-- Comma-separated serialization of object fields. -/
def JsonFields.render : JsonFields → String
  | .nil => ""
  | .cons k v .nil => renderJsonString k ++ ":" ++ Json.render v
  | .cons k v (.cons k2 v2 t) =>
      renderJsonString k ++ ":" ++ Json.render v ++ "," ++
        JsonFields.render (.cons k2 v2 t)
end

/-! ### Provider identity (core/src/unified/mod.rs) -/

/-- The closed set of supported providers (`ProviderId`). -/
inductive ProviderId where
  | Github
  | Linear
  | Trello
  | Jira
deriving DecidableEq

/-- `ProviderId::env_var`. -/
def ProviderId.envVar : ProviderId → String
  | .Github => "KIREI_GITHUB_TOKEN"
  | .Linear => "KIREI_LINEAR_TOKEN"
  | .Trello => "KIREI_TRELLO_TOKEN"
  | .Jira => "KIREI_JIRA_TOKEN"

/-- `ProviderId::display_name`. -/
def ProviderId.displayName : ProviderId → String
  | .Github => "GitHub"
  | .Linear => "Linear"
  | .Trello => "Trello"
  | .Jira => "Jira"

/-- ASCII lowercasing; models `str::to_lowercase` / `toLowerCase` on the
ASCII strings the provider names are drawn from. -/
def asciiLower (s : String) : String :=
  String.mk (s.data.map fun c =>
    if 'A' ≤ c ∧ c ≤ 'Z' then Char.ofNat (c.toNat + 32) else c)

/-- `ProviderId::from_str`: case-insensitive exact match, otherwise an
"unknown provider" error carrying the offending text. -/
def ProviderId.fromStr (s : String) : Except String ProviderId :=
  if asciiLower s = "github" then .ok .Github
  else if asciiLower s = "linear" then .ok .Linear
  else if asciiLower s = "trello" then .ok .Trello
  else if asciiLower s = "jira" then .ok .Jira
  else .error ("unknown provider " ++ s)

/-! ### Credential resolution (cli/src/commands.rs) -/

/-- Characters removed by Rust's `str::trim` (the whitespace characters
that can occur in the token strings under analysis). -/
def isRustWhitespace (c : Char) : Bool :=
  c = ' ' ∨ c = '\t' ∨ c = '\n' ∨ c = '\r' ∨
    c = Char.ofNat 11 ∨ c = Char.ofNat 12

/-- `str::trim`: strip leading and trailing whitespace. -/
def rustTrim (s : String) : String :=
  String.mk (((s.data.dropWhile isRustWhitespace).reverse.dropWhile
    isRustWhitespace).reverse)

/-- The process environment, as read through `std::env::var` (absent or
non-unicode variables read as `none`). -/
def Env : Type := String → Option String

/-- The loaded configuration view consumed by the token resolvers.
Modelled from the spec: the concrete `Config` struct lives in the
`cli_template_core` crate outside the analysed sources; per the spec it
exposes a stored token per provider plus per-provider default scopes,
which is exactly how `commands.rs` reads it (`config.github.token`,
`config.github.default_repo`, ...). -/
structure CliConfig where
  githubToken : Option String
  linearToken : Option String
  trelloToken : Option String
  jiraToken : Option String
  githubDefaultRepo : Option String
deriving DecidableEq

/-- `resolve_github_token`: environment variable first (if non-blank
after trimming), then the stored config token, else a missing-credential
error naming the provider. -/
def resolveGithubToken (env : Env) (config : CliConfig) : Except String String :=
  match env "KIREI_GITHUB_TOKEN" with
  | some envToken =>
      if rustTrim envToken ≠ "" then .ok envToken
      else match config.githubToken with
        | some t => .ok t
        | none => .error "GitHub token not configured. Run: kirei github auth"
  | none =>
      match config.githubToken with
      | some t => .ok t
      | none => .error "GitHub token not configured. Run: kirei github auth"

/-- `resolve_linear_token`. -/
def resolveLinearToken (env : Env) (config : CliConfig) : Except String String :=
  match env "KIREI_LINEAR_TOKEN" with
  | some envToken =>
      if rustTrim envToken ≠ "" then .ok envToken
      else match config.linearToken with
        | some t => .ok t
        | none => .error "Linear token not configured. Run: kirei linear auth"
  | none =>
      match config.linearToken with
      | some t => .ok t
      | none => .error "Linear token not configured. Run: kirei linear auth"

/-- `resolve_trello_token`. -/
def resolveTrelloToken (env : Env) (config : CliConfig) : Except String String :=
  match env "KIREI_TRELLO_TOKEN" with
  | some envToken =>
      if rustTrim envToken ≠ "" then .ok envToken
      else match config.trelloToken with
        | some t => .ok t
        | none => .error "Trello token not configured. Run: kirei trello auth"
  | none =>
      match config.trelloToken with
      | some t => .ok t
      | none => .error "Trello token not configured. Run: kirei trello auth"

/-- `resolve_jira_token`. -/
def resolveJiraToken (env : Env) (config : CliConfig) : Except String String :=
  match env "KIREI_JIRA_TOKEN" with
  | some envToken =>
      if rustTrim envToken ≠ "" then .ok envToken
      else match config.jiraToken with
        | some t => .ok t
        | none => .error "Jira token not configured. Run: kirei jira auth"
  | none =>
      match config.jiraToken with
      | some t => .ok t
      | none => .error "Jira token not configured. Run: kirei jira auth"

/-- Token resolution dispatched on the provider tag (the per-provider
`resolve_*_token` functions of `commands.rs`). -/
def resolveToken (p : ProviderId) (env : Env) (config : CliConfig) :
    Except String String :=
  match p with
  | .Github => resolveGithubToken env config
  | .Linear => resolveLinearToken env config
  | .Trello => resolveTrelloToken env config
  | .Jira => resolveJiraToken env config

/-- The stored config token read by `resolveToken` for each provider. -/
def CliConfig.storedToken (config : CliConfig) : ProviderId → Option String
  | .Github => config.githubToken
  | .Linear => config.linearToken
  | .Trello => config.trelloToken
  | .Jira => config.jiraToken

/-! ### GitHub scope parsing and issue mapping
(providers/github/src/lib.rs and core/src/unified/github.rs) -/

/-- Split a character list at the first occurrence of `sep`: the part
before it, and `some` remainder when the separator occurs.  This is
`str::splitn(2, sep)`: the first fragment always exists, the second
exactly when the separator occurs. -/
def splitFirst (sep : Char) : List Char → List Char × Option (List Char)
  | [] => ([], none)
  | c :: rest =>
      if c = sep then ([], some rest)
      else ((c :: (splitFirst sep rest).1), (splitFirst sep rest).2)

/-- `repo.splitn(2, '/')` as the pair (first fragment, optional rest). -/
def splitn2 (sep : Char) (s : String) : String × Option String :=
  (String.mk (splitFirst sep s.data).1, ((splitFirst sep s.data).2).map String.mk)

/-- Error type of the GitHub provider crate (`GitHubError`). -/
inductive GitHubError where
  | missingCredentials
  | repositoryRequired
  | ownerMissing
  | repoNameMissing
  | configuration (detail : String)
  | http (detail : String)
deriving DecidableEq

/-- An owner/name pair (`GitHubRepository`). -/
structure GitHubRepository where
  owner : String
  name : String
deriving DecidableEq

/-- `GitHubRepository::from_string`: split on the first `/`; an empty
owner fragment is `OwnerMissing`, an empty or absent name fragment is
`RepoNameMissing`. -/
def GitHubRepository.fromString (repo : String) : Except GitHubError GitHubRepository :=
  let parts := splitn2 '/' repo
  if parts.1 = "" then .error .ownerMissing
  else
    match parts.2 with
    | some nm => if nm = "" then .error .repoNameMissing else .ok ⟨parts.1, nm⟩
    | none => .error .repoNameMissing

/-- A GitHub issue as the provider crate models it (`GitHubIssue`). -/
structure GitHubIssue where
  id : String
  number : Int
  title : String
  body : Option String
  state : String
  htmlUrl : Option String
deriving DecidableEq

/-- `GitHubIssue::from_json`: `number` from the `"number"` field
(default 0); `id` from the integer `"id"` field, stringified, falling
back to the stringified number; `title`/`state` with defaults;
`body`/`html_url` optional. -/
def GitHubIssue.fromJson (value : Json) : GitHubIssue :=
  let number := ((value.get "number").bind Json.asInt).getD 0
  let id :=
    match (value.get "id").bind Json.asInt with
    | some i => toString i
    | none => toString number
  let title := (((value.get "title").bind Json.asStr).getD "untitled")
  let body := (value.get "body").bind Json.asStr
  let state := (((value.get "state").bind Json.asStr).getD "unknown")
  let htmlUrl := (value.get "html_url").bind Json.asStr
  ⟨id, number, title, body, state, htmlUrl⟩

/-- The response-mapping stage of `GitHubClient::list_issues` in the
provider crate: drop entries that carry a `pull_request` key, map the
rest through `GitHubIssue::from_json`. -/
def githubListIssuesPure (issues : List Json) : List GitHubIssue :=
  (issues.filter fun issue => (issue.get "pull_request").isNone).map
    GitHubIssue.fromJson

/-! ### Unified model and the core GitHub adapter -/

/-- The closed unified error type (`UnifiedError`); the HTTP transport
variant carries its rendered cause. -/
inductive UnifiedError where
  | missingToken (p : ProviderId)
  | notImplemented (p : ProviderId)
  | unexpectedResponse (rawBody : String)
  | http (detail : String)
  | configuration (detail : String)
deriving DecidableEq

/-- The provider-neutral issue record (`UnifiedIssue`). -/
structure UnifiedIssue where
  id : String
  title : String
  state : String
  url : Option String
  provider : ProviderId
  rawPayload : Json
deriving DecidableEq

/-- `UnifiedListQuery`. -/
structure UnifiedListQuery where
  workspace : Option String
  repo : Option String
  search : Option String
deriving DecidableEq

/-- An HTTP request as the adapters assemble it: method, full URL, and
the headers attached to it. -/
structure HttpRequest where
  method : String
  url : String
  headers : List (String × String)
deriving DecidableEq

/-- `GitHubClient::resolve_repo` in the core unified adapter: override
first, else the configured default, else a configuration error; then
the same first-`/` split with distinct owner/name configuration
errors. -/
def githubResolveRepo (defaultRepo : Option String) (overrideRepo : Option String) :
    Except UnifiedError (String × String) :=
  match overrideRepo.orElse fun _ => defaultRepo with
  | none => .error (.configuration "repository is required")
  | some repo =>
      let parts := splitn2 '/' repo
      if parts.1 = "" then .error (.configuration "repository owner missing")
      else
        match parts.2 with
        | some nm =>
            if nm = "" then .error (.configuration "repository name missing")
            else .ok (parts.1, nm)
        | none => .error (.configuration "repository name missing")

/-- `GitHubClient::map_issue` in the core unified adapter: `id` is the
stringified `"number"` field, falling back to the string `"id"` field;
the raw payload is retained verbatim. -/
def githubMapIssue (value : Json) : UnifiedIssue :=
  let number :=
    match (value.get "number").bind Json.asInt with
    | some n => toString n
    | none => ((value.get "id").bind Json.asStr).getD ""
  let title := (((value.get "title").bind Json.asStr).getD "untitled")
  let state := (((value.get "state").bind Json.asStr).getD "unknown")
  let url := (value.get "html_url").bind Json.asStr
  ⟨number, title, state, url, .Github, value⟩

/-- `GitHubClient::list` in the core unified adapter, with the network
exchange made explicit: resolve the repository scope, build the GET
request (bearer authorization and the `User-Agent` header), and map the
JSON array of the response through `map_issue`. -/
def githubListCore (token : String) (defaultRepo : Option String)
    (query : UnifiedListQuery) (responseBody : List Json) :
    Except UnifiedError (HttpRequest × List UnifiedIssue) := do
  let (owner, repo) ← githubResolveRepo defaultRepo query.repo
  let url := "https://api.github.com/repos/" ++ owner ++ "/" ++ repo ++
    "/issues?state=open&per_page=20"
  let request : HttpRequest :=
    ⟨"GET", url,
      [("Authorization", "Bearer " ++ token), ("User-Agent", "kirei-cli")]⟩
  .ok (request, responseBody.map githubMapIssue)

/-! ### Linear adapter (core/src/unified/linear.rs) -/

/-- `LinearClient::map_node`: project one GraphQL node into a
`UnifiedIssue`, keeping the node as the raw payload. -/
def linearMapNode (value : Json) : UnifiedIssue :=
  let id := (((value.get "id").bind Json.asStr).getD "")
  let title := (((value.get "title").bind Json.asStr).getD "untitled")
  let state :=
    ((((value.get "state").bind fun st => st.get "name").bind Json.asStr).getD
      "unknown")
  let url := (value.get "url").bind Json.asStr
  ⟨id, title, state, url, .Linear, value⟩

/-- `LinearClient::extract_nodes`: read `data.issues.nodes` as an array,
else fail with `UnexpectedResponse` carrying the response body rendered
back to text. -/
def linearExtractNodes (response : Json) : Except UnifiedError (List Json) :=
  match (((response.get "data").bind fun d => d.get "issues").bind
      fun issues => issues.get "nodes").bind Json.asArr with
  | some nodes => .ok nodes
  | none => .error (.unexpectedResponse response.render)

/-- The response-handling stage of `LinearClient::list`: extract the
nodes and map each through `map_node`. -/
def linearListCore (responseBody : Json) :
    Except UnifiedError (List UnifiedIssue) := do
  let nodes ← linearExtractNodes responseBody
  .ok (nodes.map linearMapNode)

/-- The response-handling stage of `LinearClient::create`: read the
nested `data.issueCreate.issue` path, else fail with
`UnexpectedResponse` carrying the rendered response body; on success
map the issue through `map_node`. -/
def linearCreateCore (responseBody : Json) :
    Except UnifiedError UnifiedIssue :=
  match ((responseBody.get "data").bind fun d => d.get "issueCreate").bind
      fun created => created.get "issue" with
  | some issue => .ok (linearMapNode issue)
  | none => .error (.unexpectedResponse responseBody.render)

/-! ### Trello adapter (providers/trello/src/lib.rs) -/

/-- Error type of the Trello provider crate (`TrelloError`). -/
inductive TrelloError where
  | missingCredentials
  | apiKeyRequired
  | boardRequired
  | configuration (detail : String)
  | http (detail : String)
deriving DecidableEq

/-- A Trello list (`TrelloList`). -/
structure TrelloList where
  id : String
  name : String
deriving DecidableEq

/-- The decision stage of `TrelloClient::create_card` after the board's
lists have been fetched: take the first list as the target (a
configuration error when the board has none) and assemble the POST
query parameters (`key`/`token` auth, `name`, `idList`, optional
`desc`). -/
def trelloCreateCard (apiKey token : String) (lists : List TrelloList)
    (name : String) (description : Option String) :
    Except TrelloError (List (String × String)) :=
  match lists.head? with
  | none => .error (.configuration "No lists found on board")
  | some firstList =>
      let params :=
        [("key", apiKey), ("token", token), ("name", name),
          ("idList", firstList.id)]
      .ok (params ++
        match description with
        | some d => [("desc", d)]
        | none => [])

/-! ### OAuth loopback flow
(core/src/unified/github_oauth.rs; the provider crate's oauth module
re-exports the same functions) -/

/-- The characters after the first occurrence of `sep`, when any. -/
def afterFirstChar (sep : Char) : List Char → Option (List Char)
  | [] => none
  | c :: rest => if c = sep then some rest else afterFirstChar sep rest

/-- Split on every occurrence of `sep`, keeping empty fragments. -/
def splitOnCharL (sep : Char) : List Char → List (List Char)
  | [] => [[]]
  | c :: rest =>
      if c = sep then [] :: splitOnCharL sep rest
      else
        match splitOnCharL sep rest with
        | [] => [[c]]
        | pre :: tail => (c :: pre) :: tail

/-- Split a query fragment at its first `=` into key and value (the
whole fragment is the key when there is no `=`). -/
def splitAtFirstEq (fragment : List Char) : List Char × List Char :=
  match afterFirstChar '=' fragment with
  | none => (fragment, [])
  | some v => ((splitFirst '=' fragment).1, v)

/-- ASCII hexadecimal digit test. -/
def isHexDigitChar (c : Char) : Bool :=
  c.isDigit ∨ ('a' ≤ c ∧ c ≤ 'f') ∨ ('A' ≤ c ∧ c ≤ 'F')

/-- Value of an ASCII hexadecimal digit. -/
def hexVal (c : Char) : Nat :=
  if c.isDigit then c.toNat - 48
  else if 'a' ≤ c ∧ c ≤ 'f' then c.toNat - 87
  else c.toNat - 55

/-- Percent-decoding of a query component as `url::Url::query_pairs`
performs it: `+` becomes a space and `%XX` becomes the byte `XX`.
Decoded bytes are kept as single characters (the code points the
analysed flows exchange are ASCII). -/
def percentDecodeChars : List Char → List Char
  | [] => []
  | '%' :: h1 :: h2 :: rest =>
      if isHexDigitChar h1 ∧ isHexDigitChar h2 then
        Char.ofNat (hexVal h1 * 16 + hexVal h2) :: percentDecodeChars rest
      else '%' :: percentDecodeChars (h1 :: h2 :: rest)
  | '+' :: rest => ' ' :: percentDecodeChars rest
  | c :: rest => c :: percentDecodeChars rest

/-- URL-decoding of one query component. -/
def formUrlDecode (s : String) : String :=
  String.mk (percentDecodeChars s.data)

/-- Characters the form-urlencoded serializer leaves unescaped
(ASCII alphanumerics and `*-._`). -/
def isUrlSafe (c : Char) : Bool :=
  c.isAlphanum ∨ c = '*' ∨ c = '-' ∨ c = '.' ∨ c = '_'

/-- Uppercase hexadecimal digit of `n % 16`. -/
def hexDigitUpper (n : Nat) : Char :=
  if n % 16 < 10 then Char.ofNat (48 + n % 16) else Char.ofNat (55 + n % 16)

/-- UTF-8 bytes of a character. -/
def charUtf8Bytes (c : Char) : List Nat :=
  let n := c.toNat
  if n < 128 then [n]
  else if n < 2048 then [192 + n / 64, 128 + n % 64]
  else if n < 65536 then [224 + n / 4096, 128 + n / 64 % 64, 128 + n % 64]
  else [240 + n / 262144, 128 + n / 4096 % 64, 128 + n / 64 % 64, 128 + n % 64]

/-- Form-urlencoding of one character: safe characters unchanged, space
as `+`, anything else percent-encoded byte by byte. -/
def percentEncodeChar (c : Char) : List Char :=
  if isUrlSafe c then [c]
  else if c = ' ' then ['+']
  else (charUtf8Bytes c).flatMap fun b =>
    ['%', hexDigitUpper (b / 16), hexDigitUpper (b % 16)]

/-- URL-encoding of one query component, as
`Url::query_pairs_mut().append_pair` writes it. -/
def formUrlEncode (s : String) : String :=
  String.mk (s.data.flatMap percentEncodeChar)

/-- One character of the anti-forgery state: indices 0–9 are digits,
indices 10–35 lowercase letters (`generate_random_state`). -/
def stateChar (idx : Nat) : Char :=
  if idx < 10 then Char.ofNat (48 + idx) else Char.ofNat (97 + (idx - 10))

/-- `generate_random_state`, with the random draws (each in `0..36`)
made explicit as an input list of 32 indices. -/
def generateRandomState (draws : List Nat) : String :=
  String.mk (draws.map stateChar)

/-- `GitHubOAuth::get_authorization_url`: the base URL with the four
appended query pairs, rendered, and then `&state=<state>` concatenated
a second time by the final `format!`. -/
def getAuthorizationUrl (clientId state : String) (redirectPort : Nat) : String :=
  "https://github.com/login/oauth/authorize?client_id=" ++
    formUrlEncode clientId ++
    "&redirect_uri=" ++
    formUrlEncode ("http://localhost:" ++ toString redirectPort ++ "/callback") ++
    "&scope=repo&state=" ++ formUrlEncode state ++
    "&state=" ++ state

/-- The raw key/value pairs of the query part of a URL (no decoding;
used to state which parameters the generated URL carries). -/
def queryPairsRaw (url : String) : List (String × String) :=
  match afterFirstChar '?' url.data with
  | none => []
  | some query =>
      (splitOnCharL '&' query).map fun fragment =>
        (String.mk (splitAtFirstEq fragment).1, String.mk (splitAtFirstEq fragment).2)

/-- `str::starts_with` on string literals. -/
def strStartsWith (s pre : String) : Bool :=
  pre.data.isPrefixOf s.data

/-- `extract_code_from_url`: parse `http://localhost<url>`, walk its
query pairs (percent-decoded, empty fragments skipped, fragment part
after `#` ignored) and return the value of the first `code` key. -/
def extractCodeFromUrl (url : String) : Option String :=
  match afterFirstChar '?' url.data with
  | none => none
  | some rawQuery =>
      let query := rawQuery.takeWhile (· ≠ '#')
      let pairs :=
        ((splitOnCharL '&' query).filter (· ≠ [])).map fun fragment =>
          (formUrlDecode (String.mk (splitAtFirstEq fragment).1),
            formUrlDecode (String.mk (splitAtFirstEq fragment).2))
      (pairs.find? fun p => p.1 = "code").map Prod.snd

/-- Channel activity of the callback listener, in the order the handler
thread performs it. -/
inductive ServerEvent where
  | codeSent (code : String)
  | htmlResponded
  | closeSent
deriving DecidableEq

/-- The body of the listener loop in `start_callback_server` for one
incoming request: send the extracted code (only for `/callback?...`
requests that carry one), respond with the static page, then signal
completion on the close channel. -/
def handleRequest (url : String) : List ServerEvent :=
  (if strStartsWith url "/callback?" then
    match extractCodeFromUrl url with
    | some code => [ServerEvent.codeSent code]
    | none => []
  else []) ++ [ServerEvent.htmlResponded, ServerEvent.closeSent]

/-- The codes a request causes to be enqueued on the code channel. -/
def sentCodes (url : String) : List String :=
  (handleRequest url).filterMap fun e =>
    match e with
    | .codeSent c => some c
    | _ => none

/-- OAuth wait failures surfaced by the `github auth oauth` command. -/
inductive AuthError where
  | authorizationTimedOut
  | failedToReceiveCode
deriving DecidableEq

/-- The waiting stage of the `github auth oauth` command:
`wait_for_callback` with the 300-second timeout followed by a read of
the code channel.  `firstRequest` is the URL of the first request the
listener receives within the timeout window (`none` when the timeout
elapses first). -/
def githubAuthWait (firstRequest : Option String) : Except AuthError String :=
  match firstRequest with
  | none => .error .authorizationTimedOut
  | some url =>
      match (sentCodes url).head? with
      | some code => .ok code
      | none => .error .failedToReceiveCode

/-! ### Theorems -/

/-- C9: for each of the four `ProviderId` values, parsing the lowercased
display name yields the same value back:
`parse(displayName(id).toLowerCase()) == id`. -/
theorem providerId_displayName_roundtrip (p : ProviderId) :
    ProviderId.fromStr (asciiLower p.displayName) = .ok p := by
  cases p <;> rfl

/-- C3: token resolution prefers a non-blank environment variable named
`envVarName(provider)` over the stored config token; falls back to the
stored token when the variable is unset or blank after trimming; and
otherwise fails with a missing-credential error whose message names the
provider. -/
theorem resolveToken_policy (p : ProviderId) (env : Env) (config : CliConfig) :
    (∀ t, env p.envVar = some t → rustTrim t ≠ "" →
      resolveToken p env config = .ok t)
    ∧ (∀ storedTok,
        (env p.envVar = none ∨ ∃ t, env p.envVar = some t ∧ rustTrim t = "") →
        config.storedToken p = some storedTok →
        resolveToken p env config = .ok storedTok)
    ∧ ((env p.envVar = none ∨ ∃ t, env p.envVar = some t ∧ rustTrim t = "") →
        config.storedToken p = none →
        ∃ msg, resolveToken p env config = .error msg ∧
          strStartsWith msg p.displayName = true) := by
  cases p <;>
    refine ⟨fun t ht hnb => ?_, fun storedTok he hc => ?_, fun he hc => ?_⟩ <;>
    simp only [resolveToken, resolveGithubToken, resolveLinearToken,
      resolveTrelloToken, resolveJiraToken, ProviderId.envVar,
      ProviderId.displayName, CliConfig.storedToken] at * <;>
    first
    | (rw [ht]; simp [hnb])
    | (rcases he with h | ⟨t, ht, htr⟩
       · rw [h, hc]
       · rw [ht, hc]
         simp [htr])
    | (rcases he with h | ⟨t, ht, htr⟩
       · rw [h, hc]
         exact ⟨_, rfl, by decide⟩
       · rw [ht, hc]
         simp [htr]
         exact by decide)

/-- C3 witness: with `KIREI_GITHUB_TOKEN=abc` in the environment and a
different token stored in config, resolution returns the environment
value. -/
theorem resolveToken_policy_witness :
    resolveToken .Github
      (fun name => if name = "KIREI_GITHUB_TOKEN" then some "abc" else none)
      ⟨some "stored", none, none, none, none⟩ = .ok "abc" :=
  (resolveToken_policy .Github
    (fun name => if name = "KIREI_GITHUB_TOKEN" then some "abc" else none)
    ⟨some "stored", none, none, none, none⟩).1 "abc" rfl (by decide)

/-- C7: GitHub scope parsing splits on the first `/`: `"octo/repo"`
parses to owner `octo`, name `repo`; an empty owner fragment is the
owner-missing error; a non-empty owner with an empty or absent name
fragment (in particular any slash-free input) is the distinct
repo-name-missing error; the empty string fails. -/
theorem github_scope_parsing :
    (GitHubRepository.fromString "octo/repo" = .ok ⟨"octo", "repo"⟩)
    ∧ (∀ s, (splitn2 '/' s).1 = "" →
        GitHubRepository.fromString s = .error .ownerMissing)
    ∧ (∀ s, (splitn2 '/' s).1 ≠ "" →
        ((splitn2 '/' s).2 = none ∨ (splitn2 '/' s).2 = some "") →
        GitHubRepository.fromString s = .error .repoNameMissing)
    ∧ (GitHubRepository.fromString "" = .error .ownerMissing) := by
  refine ⟨rfl, ?_, ?_, rfl⟩
  · intro s h
    simp [GitHubRepository.fromString, h]
  · intro s h1 h2
    rcases h2 with h2 | h2 <;> simp [GitHubRepository.fromString, h1, h2]

/-- C7 witness: a slash-free input fails with the repo-name-missing
error, an input with an empty owner side with the owner-missing
error. -/
theorem github_scope_parsing_witness :
    GitHubRepository.fromString "repo" = .error .repoNameMissing
    ∧ GitHubRepository.fromString "/repo" = .error .ownerMissing :=
  ⟨github_scope_parsing.2.2.1 "repo" (by decide) (by decide),
   github_scope_parsing.2.1 "/repo" (by decide)⟩

/-- The GitHub entry used to refute the claimed id rule: it has both a
`number` and a distinct integer `id` and is not a pull request. -/
def prIdEntry : Json :=
  .obj (.cons "number" (.num 5) (.cons "id" (.num 99) .nil))

/-- C2 counterexample: for the adapter variant that filters pull
requests, the produced record's `id` is not the stringified `number`
field: the non-pull-request entry with `number = 5` and `id = 99` maps
to a record whose id is `"99"`, not `"5"`. -/
theorem github_list_id_counterexample :
    (prIdEntry.get "pull_request" = none)
    ∧ ((prIdEntry.get "number").bind Json.asInt = some 5)
    ∧ (githubListIssuesPure [prIdEntry]).map GitHubIssue.id = ["99"]
    ∧ ¬ ((githubListIssuesPure [prIdEntry]).map GitHubIssue.id
          = [toString (5 : Int)]) := by
  refine ⟨rfl, rfl, rfl, ?_⟩
  decide

/-- The id the provider-crate mapping assigns to an entry: the
stringified integer `id` field when present, else the stringified
`number` field (0 when absent). -/
def githubIdSpec (entry : Json) : String :=
  match (entry.get "id").bind Json.asInt with
  | some i => toString i
  | none => toString (((entry.get "number").bind Json.asInt).getD 0)

/-- The provider-crate mapping's record id follows `githubIdSpec`. -/
theorem githubIssue_fromJson_id (entry : Json) :
    (GitHubIssue.fromJson entry).id = githubIdSpec entry := by
  unfold GitHubIssue.fromJson githubIdSpec
  cases h : (entry.get "id").bind Json.asInt <;> simp [h]

/-- C2 (amended): the pull-request-filtering list operation returns one
record per entry without a `pull_request` key, in order, whose `id` is
the stringified integer `id` field when the entry has one and the
stringified `number` field (default 0) otherwise; every entry with a
`pull_request` key is excluded. -/
theorem github_list_filters_pull_requests (entries : List Json) :
    ((githubListIssuesPure entries).map GitHubIssue.id =
      (entries.filter fun e => (e.get "pull_request").isNone).map githubIdSpec)
    ∧ ((githubListIssuesPure entries).length =
      (entries.filter fun e => (e.get "pull_request").isNone).length)
    ∧ ∀ e ∈ entries, (e.get "pull_request").isSome →
        e ∉ entries.filter fun e2 => (e2.get "pull_request").isNone := by
  refine ⟨?_, ?_, ?_⟩
  · unfold githubListIssuesPure
    rw [List.map_map]
    exact List.map_eq_map_iff.mpr fun e _ => githubIssue_fromJson_id e
  · simp [githubListIssuesPure]
  · intro e he hsome
    rw [List.mem_filter]
    rintro ⟨-, hnone⟩
    rw [Option.isNone_iff_eq_none] at hnone
    rw [hnone] at hsome
    simp at hsome

/-- A pull-request entry (its JSON carries a `pull_request` key). -/
def prEntry : Json := .obj (.cons "pull_request" Json.null .nil)

/-- C2 (amended) witness: on a two-entry fixture, the pull-request
entry is excluded and the remaining record's id follows the id rule. -/
theorem github_list_filters_pull_requests_witness :
    prEntry ∉ [prEntry, prIdEntry].filter
      fun e2 => (e2.get "pull_request").isNone :=
  (github_list_filters_pull_requests [prEntry, prIdEntry]).2.2 prEntry
    (by simp) (by decide)

/-- Environment of the end-to-end scenario: only `KIREI_GITHUB_TOKEN`
is set, to `abc123`. -/
def envEndToEnd : Env :=
  fun name => if name = "KIREI_GITHUB_TOKEN" then some "abc123" else none

/-- Configuration of the end-to-end scenario: no stored tokens, default
repo `octo/repo`. -/
def configEndToEnd : CliConfig :=
  ⟨none, none, none, none, some "octo/repo"⟩

/-- C1: with no stored config token, `KIREI_GITHUB_TOKEN=abc123` and
default repo `octo/repo`, token resolution yields `abc123`; the list
call issues a GET to the open-issues URL with `per_page=20`, the bearer
authorization header and the `User-Agent` header; and a two-element
JSON array response maps to exactly two `UnifiedIssue` records, each
with provider `Github`. -/
theorem github_list_end_to_end :
    (resolveGithubToken envEndToEnd configEndToEnd = .ok "abc123")
    ∧ (∀ j1 j2 : Json,
        githubListCore "abc123" (some "octo/repo") ⟨none, none, none⟩ [j1, j2] =
          .ok (⟨"GET",
            "https://api.github.com/repos/octo/repo/issues?state=open&per_page=20",
            [("Authorization", "Bearer abc123"), ("User-Agent", "kirei-cli")]⟩,
            [githubMapIssue j1, githubMapIssue j2]))
    ∧ ∀ j : Json, (githubMapIssue j).provider = .Github :=
  ⟨rfl, fun _ _ => rfl, fun _ => rfl⟩

/-- C4: a Linear list response without an array at `data.issues.nodes`
fails with `UnexpectedResponse` carrying the response body; a create
response without `data.issueCreate.issue` fails the same way. -/
theorem linear_missing_path_unexpected_response :
    (∀ response : Json,
        ((((response.get "data").bind fun d => d.get "issues").bind
          fun issues => issues.get "nodes").bind Json.asArr) = none →
        linearListCore response = .error (.unexpectedResponse response.render))
    ∧ (∀ response : Json,
        (((response.get "data").bind fun d => d.get "issueCreate").bind
          fun created => created.get "issue") = none →
        linearCreateCore response =
          .error (.unexpectedResponse response.render)) := by
  constructor
  · intro response h
    unfold linearListCore linearExtractNodes
    rw [h]
    rfl
  · intro response h
    unfold linearCreateCore
    rw [h]

/-- C4 witness: the empty GraphQL body `null` fails both paths with
`UnexpectedResponse "null"`. -/
theorem linear_missing_path_witness :
    linearListCore Json.null = .error (.unexpectedResponse "null")
    ∧ linearCreateCore Json.null = .error (.unexpectedResponse "null") :=
  ⟨linear_missing_path_unexpected_response.1 Json.null rfl,
   linear_missing_path_unexpected_response.2 Json.null rfl⟩

/-- C8: Trello card creation against a board whose list lookup returned
no lists fails with a configuration error naming "no lists found";
with at least one list, the card is created in the first list returned
(the request carries its id as `idList`). -/
theorem trello_create_uses_first_list :
    (∀ apiKey token cardName desc, ∃ msg,
        trelloCreateCard apiKey token [] cardName desc =
          .error (.configuration msg)
        ∧ strStartsWith (asciiLower msg) "no lists found" = true)
    ∧ (∀ apiKey token firstList rest cardName desc, ∃ params,
        trelloCreateCard apiKey token (firstList :: rest) cardName desc =
          .ok params
        ∧ ("idList", firstList.id) ∈ params) := by
  constructor
  · intro apiKey token cardName desc
    exact ⟨"No lists found on board", rfl, by decide⟩
  · intro apiKey token firstList rest cardName desc
    refine ⟨_, rfl, ?_⟩
    cases desc <;> simp [trelloCreateCard]

/-- C6: in the callback listener's handling of any single request, a
code sent on the code channel occurs strictly before the completion
signal on the close channel. -/
theorem callback_code_sent_before_close (url : String) (i j : Nat) (c : String) :
    (handleRequest url)[i]? = some (.codeSent c) →
    (handleRequest url)[j]? = some .closeSent → i < j := by
  intro hi hj
  unfold handleRequest at hi hj
  cases hsw : strStartsWith url "/callback?" <;> rw [hsw] at hi hj
  · rcases i with - | - | i <;> simp at hi
  · cases hec : extractCodeFromUrl url <;> rw [hec] at hi hj
    · rcases i with - | - | i <;> simp at hi
    · have hi0 : i = 0 := by
        rcases i with - | - | - | i <;> simp_all
      have hj2 : j = 2 := by
        rcases j with - | - | - | j <;> simp_all
      omega

/-- C6 witness: for the request `/callback?code=abc` the code occupies
position 0 of the handler's channel activity and the completion signal
position 2. -/
theorem callback_code_sent_before_close_witness :
    (handleRequest "/callback?code=abc")[0]? = some (.codeSent "abc")
    ∧ (handleRequest "/callback?code=abc")[2]? = some .closeSent
    ∧ (0 : Nat) < 2 :=
  ⟨rfl, rfl,
   callback_code_sent_before_close "/callback?code=abc" 0 2 "abc" rfl rfl⟩

/-- The raw (still percent-encoded) value of the first `code` parameter
of a query string, used to state which value a callback request
carries. -/
def rawCodeParam (query : String) : Option String :=
  (((splitOnCharL '&' query.data).filter (· ≠ [])).find? fun fragment =>
      formUrlDecode (String.mk (splitAtFirstEq fragment).1) = "code").map
    fun fragment => String.mk (splitAtFirstEq fragment).2

lemma isPrefixOf_self_append (a b : List Char) : a.isPrefixOf (a ++ b) = true := by
  induction a with
  | nil => simp [List.isPrefixOf]
  | cons c t ih =>
      show (c == c && t.isPrefixOf (t ++ b)) = true
      simp [ih]

lemma strStartsWith_append (p q : String) : strStartsWith (p ++ q) p = true := by
  unfold strStartsWith
  rw [show (p ++ q).data = p.data ++ q.data from rfl]
  exact isPrefixOf_self_append _ _

lemma takeWhile_no_hash (l : List Char) (h : '#' ∉ l) :
    l.takeWhile (· ≠ '#') = l := by
  refine List.takeWhile_eq_self_iff.mpr fun a ha => ?_
  simp only [decide_eq_true_eq]
  rintro rfl
  exact h ha

lemma find?_decode_pairs (fragments : List (List Char)) :
    ((fragments.map fun fragment =>
        (formUrlDecode (String.mk (splitAtFirstEq fragment).1),
          formUrlDecode (String.mk (splitAtFirstEq fragment).2))).find?
      fun p => p.1 = "code")
    = (fragments.find? fun fragment =>
        formUrlDecode (String.mk (splitAtFirstEq fragment).1) = "code").map
        fun fragment =>
          (formUrlDecode (String.mk (splitAtFirstEq fragment).1),
            formUrlDecode (String.mk (splitAtFirstEq fragment).2)) := by
  induction fragments with
  | nil => rfl
  | cons fragment t ih =>
      by_cases hp :
          formUrlDecode (String.mk (splitAtFirstEq fragment).1) = "code" <;>
        simp [List.find?_cons, hp, ih]

lemma extractCode_callback (query : String) (h : '#' ∉ query.data) :
    extractCodeFromUrl ("/callback?" ++ query) =
      (rawCodeParam query).map formUrlDecode := by
  have hbody : extractCodeFromUrl ("/callback?" ++ query) =
      ((((splitOnCharL '&' (query.data.takeWhile (· ≠ '#'))).filter
          (· ≠ [])).map fun fragment =>
          (formUrlDecode (String.mk (splitAtFirstEq fragment).1),
            formUrlDecode (String.mk (splitAtFirstEq fragment).2))).find?
        fun p => p.1 = "code").map Prod.snd := rfl
  rw [hbody, takeWhile_no_hash _ h, find?_decode_pairs]
  unfold rawCodeParam
  cases ((splitOnCharL '&' query.data).filter (· ≠ [])).find? fun fragment =>
      formUrlDecode (String.mk (splitAtFirstEq fragment).1) = "code" <;> rfl

/-- C5: when no callback request arrives within the timeout, the flow
fails with the authorization-timed-out error and never returns a code;
when a `/callback` request carrying a `code` query parameter arrives,
the code delivered to the caller is exactly the URL-decoded value of
that parameter. -/
theorem oauth_wait_and_code_delivery :
    (githubAuthWait none = .error .authorizationTimedOut)
    ∧ (∀ code, ¬ githubAuthWait none = .ok code)
    ∧ (∀ query rawValue, '#' ∉ query.data →
        rawCodeParam query = some rawValue →
        githubAuthWait (some ("/callback?" ++ query)) =
          .ok (formUrlDecode rawValue)) := by
  refine ⟨rfl, fun code h => Except.noConfusion h, ?_⟩
  intro query rawValue hHash hRaw
  have hex : extractCodeFromUrl ("/callback?" ++ query) =
      some (formUrlDecode rawValue) := by
    rw [extractCode_callback query hHash, hRaw]
    rfl
  simp only [githubAuthWait, sentCodes, handleRequest,
    strStartsWith_append "/callback?" query, hex, if_true]
  rfl

/-- C5 witness: the callback `/callback?code=abc%20d&state=x` delivers
the decoded code `abc d`; a timeout yields the timed-out error. -/
theorem oauth_wait_and_code_delivery_witness :
    githubAuthWait (some "/callback?code=abc%20d&state=x") = .ok "abc d" :=
  oauth_wait_and_code_delivery.2.2 "code=abc%20d&state=x" "abc%20d"
    (by decide) (by decide)

lemma afterFirstChar_append (sep : Char) (a b : List Char) (h : sep ∉ a) :
    afterFirstChar sep (a ++ sep :: b) = some b := by
  induction a with
  | nil => simp [afterFirstChar]
  | cons c t ih =>
      have hc : ¬ c = sep := fun he => h (he ▸ List.mem_cons_self c t)
      simp only [List.cons_append, afterFirstChar, if_neg hc]
      exact ih fun hm => h (List.mem_cons_of_mem c hm)

lemma splitFirst_fst_append (sep : Char) (a b : List Char) (h : sep ∉ a) :
    (splitFirst sep (a ++ sep :: b)).1 = a := by
  induction a with
  | nil => simp [splitFirst]
  | cons c t ih =>
      have hc : ¬ c = sep := fun he => h (he ▸ List.mem_cons_self c t)
      simp only [List.cons_append, splitFirst, if_neg hc]
      exact congrArg (c :: ·) (ih fun hm => h (List.mem_cons_of_mem c hm))

lemma splitAtFirstEq_append (k v : List Char) (hk : '=' ∉ k) :
    splitAtFirstEq (k ++ '=' :: v) = (k, v) := by
  unfold splitAtFirstEq
  rw [afterFirstChar_append '=' k v hk, splitFirst_fst_append '=' k v hk]

lemma splitOnCharL_append_cons (sep : Char) (a rest : List Char) (h : sep ∉ a) :
    splitOnCharL sep (a ++ sep :: rest) = a :: splitOnCharL sep rest := by
  induction a with
  | nil => simp [splitOnCharL]
  | cons c t ih =>
      have hc : ¬ c = sep := fun he => h (he ▸ List.mem_cons_self c t)
      have ih2 := ih fun hm => h (List.mem_cons_of_mem c hm)
      simp only [List.cons_append, splitOnCharL, if_neg hc, List.append_eq, ih2]

lemma splitOnCharL_no_sep (sep : Char) (a : List Char) (h : sep ∉ a) :
    splitOnCharL sep a = [a] := by
  induction a with
  | nil => rfl
  | cons c t ih =>
      have hc : ¬ c = sep := fun he => h (he ▸ List.mem_cons_self c t)
      have ih2 := ih fun hm => h (List.mem_cons_of_mem c hm)
      simp only [splitOnCharL, if_neg hc, ih2]

lemma hexDigitUpper_not_sep (n : Nat) :
    hexDigitUpper n ≠ '&' ∧ hexDigitUpper n ≠ '=' := by
  have hb : n % 16 < 16 := by omega
  have he : hexDigitUpper n = hexDigitUpper (n % 16) := by
    unfold hexDigitUpper
    have : n % 16 % 16 = n % 16 := by omega
    rw [this]
  rw [he]
  exact (by decide :
    ∀ m < 16, hexDigitUpper m ≠ '&' ∧ hexDigitUpper m ≠ '=') (n % 16) hb

lemma percentEncodeChar_not_sep (c x : Char) (hx : x ∈ percentEncodeChar c) :
    x ≠ '&' ∧ x ≠ '=' := by
  unfold percentEncodeChar at hx
  by_cases h1 : isUrlSafe c
  · rw [if_pos h1] at hx
    rcases List.mem_singleton.mp hx with rfl
    constructor <;> rintro rfl <;> exact absurd h1 (by decide)
  · rw [if_neg h1] at hx
    by_cases h2 : c = ' '
    · rw [if_pos h2] at hx
      rcases List.mem_singleton.mp hx with rfl
      exact ⟨by decide, by decide⟩
    · rw [if_neg h2] at hx
      rw [List.mem_flatMap] at hx
      obtain ⟨b, -, hm⟩ := hx
      simp only [List.mem_cons, List.not_mem_nil, or_false] at hm
      rcases hm with rfl | rfl | rfl
      · exact ⟨by decide, by decide⟩
      · exact hexDigitUpper_not_sep (b / 16)
      · exact hexDigitUpper_not_sep (b % 16)

lemma mem_formUrlEncode_not_sep (s : String) (x : Char)
    (hx : x ∈ (formUrlEncode s).data) : x ≠ '&' ∧ x ≠ '=' := by
  unfold formUrlEncode at hx
  rw [show (String.mk (s.data.flatMap percentEncodeChar)).data
      = s.data.flatMap percentEncodeChar from rfl, List.mem_flatMap] at hx
  obtain ⟨c, -, hm⟩ := hx
  exact percentEncodeChar_not_sep c x hm

lemma formUrlEncode_amp_free (s : String) : '&' ∉ (formUrlEncode s).data :=
  fun hm => (mem_formUrlEncode_not_sep s '&' hm).1 rfl

lemma stateChar_props : ∀ i < 36, isUrlSafe (stateChar i) = true ∧
    stateChar i ≠ '&' ∧ ((stateChar i).isDigit ∨ (stateChar i).isLower) := by
  decide

lemma generateRandomState_amp_free (draws : List Nat) (h : ∀ i ∈ draws, i < 36) :
    '&' ∉ (generateRandomState draws).data := by
  rw [show (generateRandomState draws).data = draws.map stateChar from rfl]
  intro hm
  rw [List.mem_map] at hm
  obtain ⟨i, hi, he⟩ := hm
  exact (stateChar_props i (h i hi)).2.1 he

lemma flatMap_encode_safe (l : List Char) (h : ∀ c ∈ l, isUrlSafe c = true) :
    l.flatMap percentEncodeChar = l := by
  induction l with
  | nil => rfl
  | cons c t ih =>
      have h1 := h c (List.mem_cons_self c t)
      have ih2 := ih fun d hd => h d (List.mem_cons_of_mem c hd)
      simp [percentEncodeChar, h1, ih2]

lemma formUrlEncode_state (draws : List Nat) (h : ∀ i ∈ draws, i < 36) :
    formUrlEncode (generateRandomState draws) = generateRandomState draws := by
  unfold formUrlEncode
  rw [show (generateRandomState draws).data = draws.map stateChar from rfl]
  rw [flatMap_encode_safe]
  · rfl
  · intro c hc
    rw [List.mem_map] at hc
    obtain ⟨i, hi, rfl⟩ := hc
    exact (stateChar_props i (h i hi)).1

lemma queryPairsRaw_authUrl (clientId st : String) (port : Nat)
    (hst : '&' ∉ st.data) :
    queryPairsRaw (getAuthorizationUrl clientId st port) =
      [("client_id", formUrlEncode clientId),
       ("redirect_uri",
         formUrlEncode ("http://localhost:" ++ toString port ++ "/callback")),
       ("scope", "repo"),
       ("state", formUrlEncode st),
       ("state", st)] := by
  have hurl : (getAuthorizationUrl clientId st port).data
      = "https://github.com/login/oauth/authorize".data ++ '?' ::
        (("client_id".data ++ '=' :: (formUrlEncode clientId).data) ++ '&' ::
         (("redirect_uri".data ++ '=' ::
             (formUrlEncode
               ("http://localhost:" ++ toString port ++ "/callback")).data) ++ '&' ::
          (("scope".data ++ '=' :: "repo".data) ++ '&' ::
           (("state".data ++ '=' :: (formUrlEncode st).data) ++ '&' ::
            ("state".data ++ '=' :: st.data))))) := by
    simp only [getAuthorizationUrl,
      show ∀ a b : String, (a ++ b).data = a.data ++ b.data from fun a b => rfl,
      List.append_assoc, List.cons_append]
    rfl
  have hafter : afterFirstChar '?' ((getAuthorizationUrl clientId st port).data)
      = some
        (("client_id".data ++ '=' :: (formUrlEncode clientId).data) ++ '&' ::
         (("redirect_uri".data ++ '=' ::
             (formUrlEncode
               ("http://localhost:" ++ toString port ++ "/callback")).data) ++ '&' ::
          (("scope".data ++ '=' :: "repo".data) ++ '&' ::
           (("state".data ++ '=' :: (formUrlEncode st).data) ++ '&' ::
            ("state".data ++ '=' :: st.data))))) := by
    rw [hurl]
    exact afterFirstChar_append '?' _ _ (by decide)
  have hnot1 : '&' ∉ "client_id".data ++ '=' :: (formUrlEncode clientId).data := by
    intro hm
    rcases List.mem_append.mp hm with hm | hm
    · exact absurd hm (by decide)
    · rcases List.mem_cons.mp hm with he | hm
      · exact absurd he (by decide)
      · exact formUrlEncode_amp_free _ hm
  have hnot2 : '&' ∉ "redirect_uri".data ++ '=' ::
      (formUrlEncode ("http://localhost:" ++ toString port ++ "/callback")).data := by
    intro hm
    rcases List.mem_append.mp hm with hm | hm
    · exact absurd hm (by decide)
    · rcases List.mem_cons.mp hm with he | hm
      · exact absurd he (by decide)
      · exact formUrlEncode_amp_free _ hm
  have hnot3 : '&' ∉ "scope".data ++ '=' :: "repo".data := by decide
  have hnot4 : '&' ∉ "state".data ++ '=' :: (formUrlEncode st).data := by
    intro hm
    rcases List.mem_append.mp hm with hm | hm
    · exact absurd hm (by decide)
    · rcases List.mem_cons.mp hm with he | hm
      · exact absurd he (by decide)
      · exact formUrlEncode_amp_free _ hm
  have hnot5 : '&' ∉ "state".data ++ '=' :: st.data := by
    intro hm
    rcases List.mem_append.mp hm with hm | hm
    · exact absurd hm (by decide)
    · rcases List.mem_cons.mp hm with he | hm
      · exact absurd he (by decide)
      · exact hst hm
  have hq : queryPairsRaw (getAuthorizationUrl clientId st port)
      = ((("client_id".data ++ '=' :: (formUrlEncode clientId).data) ++ '&' ::
         (("redirect_uri".data ++ '=' ::
             (formUrlEncode
               ("http://localhost:" ++ toString port ++ "/callback")).data) ++ '&' ::
          (("scope".data ++ '=' :: "repo".data) ++ '&' ::
           (("state".data ++ '=' :: (formUrlEncode st).data) ++ '&' ::
            ("state".data ++ '=' :: st.data)))))
        |> splitOnCharL '&').map fun fragment =>
          (String.mk (splitAtFirstEq fragment).1,
            String.mk (splitAtFirstEq fragment).2) := by
    unfold queryPairsRaw
    rw [hafter]
  rw [hq,
    splitOnCharL_append_cons '&' _ _ hnot1,
    splitOnCharL_append_cons '&' _ _ hnot2,
    splitOnCharL_append_cons '&' _ _ hnot3,
    splitOnCharL_append_cons '&' _ _ hnot4,
    splitOnCharL_no_sep '&' _ hnot5]
  simp only [List.map_cons, List.map_nil]
  rw [splitAtFirstEq_append _ _ (by decide),
    splitAtFirstEq_append _ _ (by decide),
    splitAtFirstEq_append _ _ (by decide),
    splitAtFirstEq_append _ _ (by decide),
    splitAtFirstEq_append _ _ (by decide)]

/-- C10: for every client id and redirect port, the generated
authorization URL carries the `state` parameter twice — once as an
appended query pair and once as the concatenated trailing
`&state=` suffix — with the same 32-character lowercase-alphanumeric
value in both positions, while `client_id`, `redirect_uri` and `scope`
each appear exactly once. -/
theorem oauth_state_parameter_duplicated (clientId : String) (port : Nat)
    (draws : List Nat) (hlen : draws.length = 32) (hdr : ∀ i ∈ draws, i < 36) :
    (((queryPairsRaw
        (getAuthorizationUrl clientId (generateRandomState draws) port)).filter
          fun p => p.1 = "state").map Prod.snd =
      [generateRandomState draws, generateRandomState draws])
    ∧ (generateRandomState draws).length = 32
    ∧ (∀ c ∈ (generateRandomState draws).data, c.isDigit ∨ c.isLower)
    ∧ ((queryPairsRaw
        (getAuthorizationUrl clientId (generateRandomState draws) port)).filter
          fun p => p.1 = "client_id").length = 1
    ∧ ((queryPairsRaw
        (getAuthorizationUrl clientId (generateRandomState draws) port)).filter
          fun p => p.1 = "redirect_uri").length = 1
    ∧ ((queryPairsRaw
        (getAuthorizationUrl clientId (generateRandomState draws) port)).filter
          fun p => p.1 = "scope").length = 1 := by
  have hamp := generateRandomState_amp_free draws hdr
  have hpairs := queryPairsRaw_authUrl clientId (generateRandomState draws) port hamp
  rw [formUrlEncode_state draws hdr] at hpairs
  refine ⟨?_, ?_, ?_, ?_, ?_, ?_⟩
  · rw [hpairs]
    rfl
  · rw [show (generateRandomState draws).length = (draws.map stateChar).length
      from rfl, List.length_map, hlen]
  · intro c hc
    rw [show (generateRandomState draws).data = draws.map stateChar from rfl,
      List.mem_map] at hc
    obtain ⟨i, hi, rfl⟩ := hc
    exact (stateChar_props i (hdr i hi)).2.2
  · rw [hpairs]
    rfl
  · rw [hpairs]
    rfl
  · rw [hpairs]
    rfl

/-- C10 witness: for client id `me`, port 8080 and 32 zero draws, the
`state` parameter occurs twice with the same value. -/
theorem oauth_state_parameter_duplicated_witness :
    ((queryPairsRaw
      (getAuthorizationUrl "me" (generateRandomState (List.replicate 32 0))
        8080)).filter fun p => p.1 = "state").map Prod.snd =
      [generateRandomState (List.replicate 32 0),
       generateRandomState (List.replicate 32 0)] :=
  (oauth_state_parameter_duplicated "me" 8080 (List.replicate 32 0)
    (by decide) (by decide)).1

end Kirei
